import Mathlib

set_option linter.unusedSectionVars false

/-!
Verification of the identity-merging core of the `sae-geo-merger` stage.

The development shallowly embeds the Python sources:
* `src/geomerger/mapper.py` — the identity forest (`Mapper`, `ExpiringMapper`),
* `src/geomerger/geomerger.py` — the fusion orchestrator (`GeoMerger._update_mappings`),
* `src/geomerger/buffer.py` — the time-sorted `MessageBuffer`,
* `src/geomerger/model.py` — the per-object position model (`ObjectPositionModel`).

Python dictionaries are embedded as association lists with Python-dict update
semantics: updating an existing key keeps its position, a fresh key is appended
at the end (insertion order), and `dict.pop` removes the entry.  Numeric values
(timestamps, coordinates) are embedded as rationals; object ids are opaque
naturals and source ids are strings, as in the source.
-/

namespace GeoMerger

/-! ## Association-list primitives mirroring Python `dict` semantics -/

variable {α : Type} {β : Type} [DecidableEq α]

/-- First value stored under key `k` (Python `d[k]` / `d.get(k)`). -/
def alookup (k : α) : List (α × β) → Option β
  | [] => none
  | (a, b) :: rest => if a = k then some b else alookup k rest

/-- Python `d[k] = v`: update in place if present, else append at the end. -/
def setVal (k : α) (v : β) : List (α × β) → List (α × β)
  | [] => [(k, v)]
  | (a, b) :: rest => if a = k then (a, v) :: rest else (a, b) :: setVal k v rest

/-- Python `defaultdict(list)` access `d[k].append(x)`: append `x` to the list
stored under `k`, creating an empty list first when `k` is absent. -/
def appendVal (k : α) (x : β) : List (α × List β) → List (α × List β)
  | [] => [(k, [x])]
  | (a, l) :: rest => if a = k then (a, l ++ [x]) :: rest else (a, l) :: appendVal k x rest

/-- Python `defaultdict(list)` access `d[k].remove(x)`: erase the first
occurrence of `x` from the list stored under `k` (creating an empty list when
`k` is absent, as the defaultdict access does). -/
def removeVal (k : α) (x : β) [DecidableEq β] : List (α × List β) → List (α × List β)
  | [] => [(k, [])]
  | (a, l) :: rest => if a = k then (a, l.erase x) :: rest else (a, l) :: removeVal k x rest

/-- Python `d.pop(k, None)`: drop the entry stored under `k`, if any. -/
def popKey (k : α) : List (α × β) → List (α × β)
  | [] => []
  | (a, b) :: rest => if a = k then rest else (a, b) :: popKey k rest

/-- The keys of an association list, in order. -/
def keys (l : List (α × β)) : List α := l.map Prod.fst

/-! ## `mapper.py`: `MapperEntry` and the `Mapper` forest -/

/-- `MapperEntry(source_id, object_id)` from `mapper.py`; `object_id` is an
opaque byte string, embedded as a natural number. -/
structure MapperEntry where
  source_id : String
  object_id : Nat
deriving DecidableEq

/-- The two dictionaries making up the `Mapper` state:
`_secondaries_by_primary : Dict[MapperEntry, List[MapperEntry]]` and
`_primary_by_secondary : Dict[MapperEntry, MapperEntry]`. -/
structure MapperState where
  secondaries_by_primary : List (MapperEntry × List MapperEntry)
  primary_by_secondary : List (MapperEntry × MapperEntry)
deriving DecidableEq

namespace Mapper

/-- `Mapper.__init__`: both dictionaries start empty. -/
def empty : MapperState := ⟨[], []⟩

/-- `Mapper.is_primary`: membership in `_secondaries_by_primary`. -/
def is_primary (st : MapperState) (entry : MapperEntry) : Bool :=
  (alookup entry st.secondaries_by_primary).isSome

/-- `Mapper.is_secondary`: membership in `_primary_by_secondary`. -/
def is_secondary (st : MapperState) (entry : MapperEntry) : Bool :=
  (alookup entry st.primary_by_secondary).isSome

/-- `Mapper.is_secondary_for`: `is_primary(primary) and secondary in
self._secondaries_by_primary[primary]`. -/
def is_secondary_for (st : MapperState) (secondary primary : MapperEntry) : Bool :=
  is_primary st primary && decide (secondary ∈ (alookup primary st.secondaries_by_primary).getD [])

/-- `Mapper.is_known`. -/
def is_known (st : MapperState) (entry : MapperEntry) : Bool :=
  is_primary st entry || is_secondary st entry

/-- `Mapper.get_primary`: raises `MapperError` when the key is not secondary. -/
def get_primary (st : MapperState) (secondary : MapperEntry) : Except String MapperEntry :=
  if !(is_secondary st secondary) then .error ("Secondary is not secondary.")
  else match alookup secondary st.primary_by_secondary with
    | some p => .ok p
    | none => .error ("Secondary is not secondary.")

/-- `Mapper.get_secondaries`: raises `MapperError` when the key is not primary. -/
def get_secondaries (st : MapperState) (primary : MapperEntry) : Except String (List MapperEntry) :=
  if !(is_primary st primary) then .error ("Primary is not primary.")
  else .ok ((alookup primary st.secondaries_by_primary).getD [])

/-- `Mapper._add_mapping`: `_secondaries_by_primary[primary].append(secondary)`
then `_primary_by_secondary[secondary] = primary`. -/
def add_mapping (st : MapperState) (primary secondary : MapperEntry) : MapperState :=
  ⟨appendVal primary secondary st.secondaries_by_primary,
   setVal secondary primary st.primary_by_secondary⟩

/-- `Mapper._remove_primary`: pop the primary's entry; when `remove_secondaries`
is set, also pop each of its former secondaries from `_primary_by_secondary`. -/
def remove_primary (st : MapperState) (primary : MapperEntry) (remove_secondaries : Bool) :
    MapperState :=
  let secondaries := alookup primary st.secondaries_by_primary
  ⟨popKey primary st.secondaries_by_primary,
   if remove_secondaries then
     match secondaries with
     | some l => l.foldl (fun d sec => popKey sec d) st.primary_by_secondary
     | none => st.primary_by_secondary
   else st.primary_by_secondary⟩

/-- `Mapper.map_secondary`. -/
def map_secondary (st : MapperState) (secondary primary : MapperEntry) :
    Except String MapperState :=
  if primary.source_id = secondary.source_id then
    .error ("Primary and secondary have the same source_id")
  else if is_secondary st secondary then
    if is_secondary_for st secondary primary then
      .ok st
    else
      .error ("Secondary already mapped to another primary")
  else
    .ok (add_mapping st primary secondary)

/-- `Mapper.remap_secondary`. -/
def remap_secondary (st : MapperState) (secondary new_primary : MapperEntry) :
    Except String MapperState :=
  if secondary.source_id = new_primary.source_id then
    .error ("Secondary and new_primary have the same source_id")
  else if !(is_secondary st secondary) then
    .error ("Entry is not secondary.")
  else if is_secondary_for st secondary new_primary then
    .ok st
  else
    match alookup secondary st.primary_by_secondary with
    | none => .error ("Entry is not secondary.")
    | some old_primary =>
      .ok ⟨appendVal new_primary secondary
             (removeVal old_primary secondary st.secondaries_by_primary),
           setVal secondary new_primary st.primary_by_secondary⟩

/-- `Mapper.demote_primary`. -/
def demote_primary (st : MapperState) (primary new_primary : MapperEntry)
    (migrate_children : Bool) : Except String MapperState :=
  if primary.source_id = new_primary.source_id then
    .error ("Primary and new_primary have the same source_id")
  else if !(is_primary st primary) || is_secondary st new_primary then
    .error ("Primary or new primary is not primary.")
  else
    let children :=
      if migrate_children then (alookup primary st.secondaries_by_primary).getD [] else []
    let st1 := remove_primary st primary true
    let st2 := add_mapping st1 new_primary primary
    .ok (children.foldl (fun s child => add_mapping s new_primary child) st2)

end Mapper

/-! ## `mapper.py`: call sequences on a `Mapper`

`MapperCall` lists the mutating operations; `stepCall` executes one call,
keeping the previous state when the call raises (all `MapperError` raises in
the source happen before any mutation, so a raising call leaves the
dictionaries untouched). -/

/-- One mutating call of the public `Mapper` API. -/
inductive MapperCall where
  | mapSec (secondary primary : MapperEntry)
  | remapSec (secondary new_primary : MapperEntry)
  | demote (primary new_primary : MapperEntry) (migrate_children : Bool)

namespace Mapper

/-- Execute one call; a raising call leaves the forest unchanged. -/
def stepCall (st : MapperState) : MapperCall → MapperState
  | .mapSec s p => ((map_secondary st s p).toOption).getD st
  | .remapSec s np => ((remap_secondary st s np).toOption).getD st
  | .demote p np m => ((demote_primary st p np m).toOption).getD st

/-- Execute a sequence of calls. -/
def runCalls (st : MapperState) (calls : List MapperCall) : MapperState :=
  calls.foldl stepCall st

/-- A run in which every call satisfies guard `g` at the state it executes in. -/
def guardedRun (g : MapperState → MapperCall → Bool) : MapperState → List MapperCall → Bool
  | _, [] => true
  | st, c :: cs => g st c && guardedRun g (stepCall st c) cs

/-- Role guard: `map_secondary` must not be handed a secondary argument that is
already primary nor a primary argument that is already secondary, and
`remap_secondary` must not be handed a new primary that is already secondary.
This is exactly what the orchestrator's 4-tuple dispatch guarantees;
`demote_primary` checks its own roles. -/
def roleGuard (st : MapperState) : MapperCall → Bool
  | .mapSec s p => !(is_primary st s) && !(is_secondary st p)
  | .remapSec _ np => !(is_secondary st np)
  | .demote _ _ _ => true

/-- Source guard: a `demote_primary` call migrating children must not migrate a
child whose `source_id` equals the new primary's. -/
def sourceGuard (st : MapperState) : MapperCall → Bool
  | .demote p np true =>
      ((alookup p st.secondaries_by_primary).getD []).all
        (fun c => !(decide (c.source_id = np.source_id)))
  | _ => true

end Mapper

/-! ## `mapper.py`: the `ExpiringMapper` decoration

Wall-clock time is made explicit: every wrapped call takes the current time
`now`.  The wrapper records `now` as last-seen time for every `MapperEntry`
argument and then runs the (rate-limited) sweep; the sweep here is embedded as
always running, which is its behaviour while under the rate limit. -/

/-- `ExpiringMapper` state: the forest plus `_entries_last_seen` and the
configured `_entry_expiration_age_s`. -/
structure ExpiringState where
  mapper : MapperState
  entries_last_seen : List (MapperEntry × ℚ)
  entry_expiration_age_s : ℚ
deriving DecidableEq

namespace ExpiringMapper

/-- The wrapper's touch step: record `now` for each `MapperEntry` argument. -/
def touch (now : ℚ) (args : List MapperEntry) (st : ExpiringState) : ExpiringState :=
  { st with entries_last_seen := args.foldl (fun d a => setVal a now d) st.entries_last_seen }

/-- `ExpiringMapper._expire_entries`: drop the last-seen records older than the
configured age.  The forest itself is NOT touched — the unlinking code in the
source is commented out (marked TODO because the wrapped methods recurse). -/
def expire_entries (now : ℚ) (st : ExpiringState) : ExpiringState :=
  { st with entries_last_seen :=
      st.entries_last_seen.filter (fun e => !(st.entry_expiration_age_s < now - e.2)) }

/-- Wrapped `map_secondary`: touch both arguments, sweep, then run the call. -/
def wrapped_map_secondary (now : ℚ) (st : ExpiringState) (secondary primary : MapperEntry) :
    Except String ExpiringState :=
  let st1 := expire_entries now (touch now [secondary, primary] st)
  (Mapper.map_secondary st1.mapper secondary primary).map (fun m => { st1 with mapper := m })

/-- Wrapped `is_known`: touch the argument, sweep, then query. -/
def wrapped_is_known (now : ℚ) (st : ExpiringState) (entry : MapperEntry) :
    Bool × ExpiringState :=
  let st1 := expire_entries now (touch now [entry] st)
  (Mapper.is_known st1.mapper entry, st1)

end ExpiringMapper

/-! ## `geomerger.py`: the fusion orchestrator's forest update

`GeoMerger._update_mappings` iterates over the buffered detections; for each
reference detection it finds the closest detection of another source
(`match_det`) and dispatches on the 4-tuple of role predicates.  The dispatch
and the surrounding try/except are embedded over the resulting list of
`(match_entry, buffer_entry)` pairs. -/

namespace Orchestrator

open Mapper

/-- The body of the `match` statement in `GeoMerger._update_mappings`, for one
`(match_entry, buffer_entry)` pair.  The wildcard case only logs. -/
def updatePair (st : MapperState) (match_entry buffer_entry : MapperEntry) :
    Except String MapperState :=
  match (is_primary st match_entry, is_secondary st match_entry,
         is_primary st buffer_entry, is_secondary st buffer_entry) with
  | (false, false, false, false) | (true, false, false, false) =>
      map_secondary st buffer_entry match_entry
  | (false, true, false, false) => do
      let primary ← get_primary st match_entry
      if !(decide (primary = buffer_entry)) && !(decide (primary.source_id = buffer_entry.source_id)) then
        map_secondary st buffer_entry primary
      else
        .ok st
  | (false, true, true, false) => do
      let primary ← get_primary st match_entry
      if !(decide (primary = buffer_entry)) && !(decide (primary.source_id = buffer_entry.source_id)) then
        demote_primary st buffer_entry primary true
      else
        .ok st
  | (false, false, false, true) => do
      let primary ← get_primary st buffer_entry
      if !(decide (primary = buffer_entry)) && !(decide (primary.source_id = match_entry.source_id)) then
        map_secondary st match_entry primary
      else
        .ok st
  | (true, false, true, false) =>
      demote_primary st buffer_entry match_entry true
  | (true, false, false, true) =>
      if !(is_secondary_for st buffer_entry match_entry) then
        remap_secondary st buffer_entry match_entry
      else
        .ok st
  | _ => .ok st

/-- The 4-tuples of role predicates that have their own `case` in the source's
`match` statement; every other tuple falls into the log-only wildcard. -/
def handledTuple : Bool × Bool × Bool × Bool → Bool
  | (false, false, false, false) => true
  | (true, false, false, false) => true
  | (false, true, false, false) => true
  | (false, true, true, false) => true
  | (false, false, false, true) => true
  | (true, false, true, false) => true
  | (true, false, false, true) => true
  | _ => false

/-- The matching loop of `_update_mappings` under its `try`: a `MapperError`
raised for one pair escapes the loop (the `except` is outside the `for`), so
the remaining pairs are not processed; the state at the raise is kept, since
every raise in `mapper.py` happens before any mutation. -/
def run_pairs (st : MapperState) : List (MapperEntry × MapperEntry) → MapperState
  | [] => st
  | (m, b) :: rest =>
    match updatePair st m b with
    | .ok st2 => run_pairs st2 rest
    | .error _ => st

end Orchestrator

/-! ## `buffer.py`: the `MessageBuffer`

Only the frame timestamps matter to `pop_slice` and `is_healthy`, so a
buffered message is embedded as its `frame.timestamp_utc_ms` (a rational, so
that the float `min_slice_length_ms` argument is covered as well).  The buffer
list is kept sorted ascending by `append`. -/

namespace Buffer

/-- `MessageBuffer.is_healthy`: non-empty and spanning at least the target
window size. -/
def is_healthy (target_window_size_ms : ℚ) (messages : List ℚ) : Bool :=
  decide (messages ≠ []) &&
    decide (target_window_size_ms ≤ messages.getLastD 0 - messages.headD 0)

/-- The `while self.is_healthy(): messages.append(self._messages.pop(0))` loop
of `pop_slice`; returns the popped prefix and the remaining buffer. -/
def popLoop (target_window_size_ms : ℚ) : List ℚ → List ℚ × List ℚ
  | [] => ([], [])
  | m :: rest =>
    if is_healthy target_window_size_ms (m :: rest) then
      let p := popLoop target_window_size_ms rest
      (m :: p.1, p.2)
    else
      ([], m :: rest)

/-- The cutoff-index scan of `pop_slice`: the first index whose timestamp is at
least `min_slice_length_ms` past the first message's, defaulting to the last
index. -/
def cutoffIndex (min_slice_length_ms : ℚ) (messages : List ℚ) : Nat :=
  (messages.findIdx? (fun t => decide (messages.headD 0 + min_slice_length_ms ≤ t))).getD
    (messages.length - 1)

/-- `MessageBuffer.pop_slice`, returning the popped slice and the remaining
buffer. -/
def pop_slice (target_window_size_ms min_slice_length_ms : ℚ) (messages : List ℚ) :
    List ℚ × List ℚ :=
  if messages = [] then ([], [])
  else
    let cutoff := cutoffIndex min_slice_length_ms messages
    if !(target_window_size_ms ≤ messages.getLastD 0 - messages.getD cutoff 0) then
      ([], messages)
    else
      popLoop target_window_size_ms messages

end Buffer

/-! ## `model.py`: `ObjectPositionModel`

Coordinates and timestamps are embedded as rationals; `self._positions` is a
`deque(maxlen=2)` holding the newest observation last. -/

/-- A lat/lon pair (`geo.Coord`). -/
structure Coord where
  lat : ℚ
  lon : ℚ
deriving DecidableEq

/-- An `Observation(time, coord)` from `model.py`. -/
structure Observation where
  time : ℚ
  coord : Coord
deriving DecidableEq

namespace PositionModel

/-- `ObjectPositionModel.observe`: push the new observation, keeping at most
the two newest (`deque(maxlen=2)`). -/
def observe (positions : List Observation) (coord : Coord) (at_time : ℚ) : List Observation :=
  let ps := positions ++ [⟨at_time, coord⟩]
  ps.drop (ps.length - 2)

/-- `ObjectPositionModel._get_speed`: component-wise velocity, zero when the
two samples share a timestamp. -/
def get_speed (pt1 pt2 : Observation) : ℚ × ℚ :=
  let delta_t := pt2.time - pt1.time
  if delta_t = 0 then (0, 0)
  else ((pt2.coord.lat - pt1.coord.lat) / delta_t, (pt2.coord.lon - pt1.coord.lon) / delta_t)

/-- `ObjectPositionModel.get_position`: absent without observations, the single
observation's coordinate with one, and constant-velocity extrapolation from the
newest two otherwise (`positions[-1]` and `positions[-2]`). -/
def get_position (positions : List Observation) (at_time : ℚ) : Option Coord :=
  match positions with
  | [] => none
  | [obs] => some obs.coord
  | p :: q :: rest =>
    let ref := (p :: q :: rest).getLastD ⟨0, 0, 0⟩
    let prev := ((p :: q :: rest).dropLast).getLastD ⟨0, 0, 0⟩
    let speed := get_speed prev ref
    let delta_t := at_time - ref.time
    some ⟨ref.coord.lat + speed.1 * delta_t, ref.coord.lon + speed.2 * delta_t⟩

end PositionModel

/-! ## Invariants and concrete example states used by the verification -/

namespace Mapper

/-- Every secondary recorded in the forest joins keys of different sources. -/
def sources_differ (st : MapperState) : Prop :=
  ∀ s p : MapperEntry, alookup s st.primary_by_secondary = some p →
    s.source_id ≠ p.source_id

/-- The induction invariant for claim C7: the secondary dictionary has unique
keys and every recorded link joins different sources. -/
def inv7 (st : MapperState) : Prop :=
  (keys st.primary_by_secondary).Nodup ∧ sources_differ st

/-- The full forest invariant: both dictionaries have unique keys, they are
mutually coherent (a secondary is recorded in exactly its primary's list, and
list members are exactly the recorded secondaries), the secondary lists have
no duplicates, and no key is simultaneously primary and secondary. -/
structure ForestInv (st : MapperState) : Prop where
  nodup_bp : (keys st.secondaries_by_primary).Nodup
  nodup_ps : (keys st.primary_by_secondary).Nodup
  coh_ps_bp : ∀ s p : MapperEntry, alookup s st.primary_by_secondary = some p →
    ∃ l, alookup p st.secondaries_by_primary = some l ∧ s ∈ l
  coh_bp_ps : ∀ (p : MapperEntry) (l : List MapperEntry),
    alookup p st.secondaries_by_primary = some l →
    ∀ s ∈ l, alookup s st.primary_by_secondary = some p
  nodup_lists : ∀ (p : MapperEntry) (l : List MapperEntry),
    alookup p st.secondaries_by_primary = some l → l.Nodup
  disj : ∀ k : MapperEntry, (alookup k st.secondaries_by_primary).isSome = true →
    alookup k st.primary_by_secondary = none

end Mapper

/-- A forest in which both `("s1",1)` and `("s2",3)` are Primary. -/
def bothPrimSt : MapperState :=
  ⟨[(⟨"s1", 1⟩, [⟨"s2", 2⟩]), (⟨"s2", 3⟩, [⟨"s1", 4⟩])],
   [(⟨"s2", 2⟩, ⟨"s1", 1⟩), (⟨"s1", 4⟩, ⟨"s2", 3⟩)]⟩

/-- The `ExpiringMapper` example of the repository's `test_expiration`:
expiration age 30, one mapping recorded at time 0. -/
def expInit : ExpiringState := ⟨Mapper.empty, [], 30⟩

/-- The state after `map_secondary(("s2",2), ("s1",1))` at time 0. -/
def expSt1 : ExpiringState :=
  (ExpiringMapper.wrapped_map_secondary 0 expInit ⟨"s2", 2⟩ ⟨"s1", 1⟩).toOption.getD expInit

/-! ## Lemmas about the association-list primitives -/

section AListLemmas

variable {k k' : α} {v : β}

@[simp] theorem keys_nil : keys ([] : List (α × β)) = [] := rfl

@[simp] theorem keys_cons (a : α) (b : β) (l : List (α × β)) :
    keys ((a, b) :: l) = a :: keys l := rfl

theorem alookup_setVal_self (k : α) (v : β) (l : List (α × β)) :
    alookup k (setVal k v l) = some v := by
  induction l with
  | nil => simp [setVal, alookup]
  | cons hd tl ih =>
    obtain ⟨a, b⟩ := hd
    by_cases h : a = k
    · simp [setVal, alookup, h]
    · simp [setVal, alookup, h, ih]

theorem alookup_setVal_ne (h : k' ≠ k) (v : β) (l : List (α × β)) :
    alookup k' (setVal k v l) = alookup k' l := by
  induction l with
  | nil => simp [setVal, alookup, Ne.symm h]
  | cons hd tl ih =>
    obtain ⟨a, b⟩ := hd
    by_cases ha : a = k
    · subst ha
      simp [setVal, alookup, Ne.symm h]
    · simp [setVal, alookup, ha, ih]

theorem alookup_appendVal_self (k : α) (x : γ) (l : List (α × List γ)) :
    alookup k (appendVal k x l) = some ((alookup k l).getD [] ++ [x]) := by
  induction l with
  | nil => simp [appendVal, alookup]
  | cons hd tl ih =>
    obtain ⟨a, b⟩ := hd
    by_cases h : a = k
    · simp [appendVal, alookup, h]
    · simp [appendVal, alookup, h, ih]

theorem alookup_appendVal_ne (h : k' ≠ k) (x : γ) (l : List (α × List γ)) :
    alookup k' (appendVal k x l) = alookup k' l := by
  induction l with
  | nil => simp [appendVal, alookup, Ne.symm h]
  | cons hd tl ih =>
    obtain ⟨a, b⟩ := hd
    by_cases ha : a = k
    · subst ha
      simp [appendVal, alookup, Ne.symm h]
    · simp [appendVal, alookup, ha, ih]

theorem alookup_removeVal_self [DecidableEq γ] (k : α) (x : γ) (l : List (α × List γ)) :
    alookup k (removeVal k x l) = some (((alookup k l).getD []).erase x) := by
  induction l with
  | nil => simp [removeVal, alookup]
  | cons hd tl ih =>
    obtain ⟨a, b⟩ := hd
    by_cases h : a = k
    · simp [removeVal, alookup, h]
    · simp [removeVal, alookup, h, ih]

theorem alookup_removeVal_ne [DecidableEq γ] (h : k' ≠ k) (x : γ) (l : List (α × List γ)) :
    alookup k' (removeVal k x l) = alookup k' l := by
  induction l with
  | nil => simp [removeVal, alookup, Ne.symm h]
  | cons hd tl ih =>
    obtain ⟨a, b⟩ := hd
    by_cases ha : a = k
    · subst ha
      simp [removeVal, alookup, Ne.symm h]
    · simp [removeVal, alookup, ha, ih]

theorem popKey_sublist (k : α) (l : List (α × β)) : List.Sublist (popKey k l) l := by
  induction l with
  | nil => simp [popKey]
  | cons hd tl ih =>
    obtain ⟨a, b⟩ := hd
    by_cases h : a = k
    · simpa [popKey, h] using List.sublist_cons_self (a, b) tl
    · simpa [popKey, h] using ih.cons₂ (a, b)

theorem alookup_popKey_ne (h : k' ≠ k) (l : List (α × β)) :
    alookup k' (popKey k l) = alookup k' l := by
  induction l with
  | nil => simp [popKey]
  | cons hd tl ih =>
    obtain ⟨a, b⟩ := hd
    by_cases ha : a = k
    · subst ha
      simp [popKey, alookup, Ne.symm h]
    · simp [popKey, alookup, ha, ih]

theorem alookup_eq_none_iff (k : α) (l : List (α × β)) :
    alookup k l = none ↔ k ∉ keys l := by
  induction l with
  | nil => simp [alookup]
  | cons hd tl ih =>
    obtain ⟨a, b⟩ := hd
    by_cases h : a = k
    · subst h
      simp [alookup]
    · simp only [alookup, h, if_false, keys_cons, List.mem_cons, ih]
      constructor
      · intro h1 h2
        rcases h2 with h2 | h2
        · exact h (h2.symm)
        · exact h1 h2
      · intro h1 h2
        exact h1 (Or.inr h2)

theorem alookup_isSome_iff (k : α) (l : List (α × β)) :
    (alookup k l).isSome = true ↔ k ∈ keys l := by
  rw [Option.isSome_iff_ne_none]
  constructor
  · intro h
    by_contra hk
    exact h ((alookup_eq_none_iff k l).mpr hk)
  · intro h hn
    exact ((alookup_eq_none_iff k l).mp hn) h

theorem keys_sublist_of_sublist {l₁ l₂ : List (α × β)} (h : List.Sublist l₁ l₂) :
    List.Sublist (keys l₁) (keys l₂) := h.map Prod.fst

theorem alookup_eq_none_of_sublist {l₁ l₂ : List (α × β)} (h : List.Sublist l₁ l₂)
    (hn : alookup k l₂ = none) : alookup k l₁ = none := by
  rw [alookup_eq_none_iff] at hn ⊢
  exact fun hm => hn ((keys_sublist_of_sublist h).subset hm)

theorem nodup_keys_of_sublist {l₁ l₂ : List (α × β)} (h : List.Sublist l₁ l₂)
    (hn : (keys l₂).Nodup) : (keys l₁).Nodup := hn.sublist (keys_sublist_of_sublist h)

theorem alookup_popKey_self {l : List (α × β)} (h : (keys l).Nodup) (k : α) :
    alookup k (popKey k l) = none := by
  induction l with
  | nil => simp [popKey, alookup]
  | cons hd tl ih =>
    obtain ⟨a, b⟩ := hd
    simp only [keys_cons, List.nodup_cons] at h
    by_cases ha : a = k
    · subst ha
      simp only [popKey, if_pos rfl]
      rw [alookup_eq_none_iff]
      exact h.1
    · simp only [popKey, ha, if_false, alookup, if_neg ha]
      exact ih h.2

theorem keys_setVal_of_mem {l : List (α × β)} (hmem : k ∈ keys l) (v : β) :
    keys (setVal k v l) = keys l := by
  induction l with
  | nil => simp at hmem
  | cons hd tl ih =>
    obtain ⟨a, b⟩ := hd
    by_cases ha : a = k
    · simp [setVal, ha]
    · simp only [keys_cons, List.mem_cons] at hmem
      rcases hmem with h1 | h1
      · exact absurd h1.symm ha
      · simp only [setVal, ha, if_false, keys_cons, ih h1]

theorem keys_setVal_of_not_mem {l : List (α × β)} (hmem : k ∉ keys l) (v : β) :
    keys (setVal k v l) = keys l ++ [k] := by
  induction l with
  | nil => simp [setVal]
  | cons hd tl ih =>
    obtain ⟨a, b⟩ := hd
    simp only [keys_cons, List.mem_cons] at hmem
    push_neg at hmem
    have ha : a ≠ k := fun h => hmem.1 h.symm
    simp only [setVal, ha, if_false, keys_cons, ih hmem.2, List.cons_append]

theorem nodup_keys_setVal {l : List (α × β)} (h : (keys l).Nodup) (k : α) (v : β) :
    (keys (setVal k v l)).Nodup := by
  by_cases hmem : k ∈ keys l
  · rw [keys_setVal_of_mem hmem]; exact h
  · rw [keys_setVal_of_not_mem hmem]
    simp [List.nodup_append, h, hmem]

theorem keys_appendVal_of_mem {l : List (α × List γ)} (hmem : k ∈ keys l) (x : γ) :
    keys (appendVal k x l) = keys l := by
  induction l with
  | nil => simp at hmem
  | cons hd tl ih =>
    obtain ⟨a, b⟩ := hd
    by_cases ha : a = k
    · simp [appendVal, ha]
    · simp only [keys_cons, List.mem_cons] at hmem
      rcases hmem with h1 | h1
      · exact absurd h1.symm ha
      · simp only [appendVal, ha, if_false, keys_cons, ih h1]

theorem keys_appendVal_of_not_mem {l : List (α × List γ)} (hmem : k ∉ keys l) (x : γ) :
    keys (appendVal k x l) = keys l ++ [k] := by
  induction l with
  | nil => simp [appendVal]
  | cons hd tl ih =>
    obtain ⟨a, b⟩ := hd
    simp only [keys_cons, List.mem_cons] at hmem
    push_neg at hmem
    have ha : a ≠ k := fun h => hmem.1 h.symm
    simp only [appendVal, ha, if_false, keys_cons, ih hmem.2, List.cons_append]

theorem nodup_keys_appendVal {l : List (α × List γ)} (h : (keys l).Nodup) (k : α) (x : γ) :
    (keys (appendVal k x l)).Nodup := by
  by_cases hmem : k ∈ keys l
  · rw [keys_appendVal_of_mem hmem]; exact h
  · rw [keys_appendVal_of_not_mem hmem]
    simp [List.nodup_append, h, hmem]

theorem keys_removeVal_of_mem [DecidableEq γ] {l : List (α × List γ)} (hmem : k ∈ keys l)
    (x : γ) : keys (removeVal k x l) = keys l := by
  induction l with
  | nil => simp at hmem
  | cons hd tl ih =>
    obtain ⟨a, b⟩ := hd
    by_cases ha : a = k
    · simp [removeVal, ha]
    · simp only [keys_cons, List.mem_cons] at hmem
      rcases hmem with h1 | h1
      · exact absurd h1.symm ha
      · simp only [removeVal, ha, if_false, keys_cons, ih h1]

theorem keys_removeVal_of_not_mem [DecidableEq γ] {l : List (α × List γ)} (hmem : k ∉ keys l)
    (x : γ) : keys (removeVal k x l) = keys l ++ [k] := by
  induction l with
  | nil => simp [removeVal]
  | cons hd tl ih =>
    obtain ⟨a, b⟩ := hd
    simp only [keys_cons, List.mem_cons] at hmem
    push_neg at hmem
    have ha : a ≠ k := fun h => hmem.1 h.symm
    simp only [removeVal, ha, if_false, keys_cons, ih hmem.2, List.cons_append]

theorem nodup_keys_removeVal [DecidableEq γ] {l : List (α × List γ)} (h : (keys l).Nodup)
    (k : α) (x : γ) : (keys (removeVal k x l)).Nodup := by
  by_cases hmem : k ∈ keys l
  · rw [keys_removeVal_of_mem hmem]; exact h
  · rw [keys_removeVal_of_not_mem hmem]
    simp [List.nodup_append, h, hmem]

theorem foldl_popKey_sublist (secs : List α) (ps : List (α × β)) :
    List.Sublist (secs.foldl (fun d sec => popKey sec d) ps) ps := by
  induction secs generalizing ps with
  | nil => simp
  | cons s rest ih =>
    simp only [List.foldl_cons]
    exact (ih (popKey s ps)).trans (popKey_sublist s ps)

theorem alookup_foldl_popKey_of_not_mem {secs : List α} (hmem : k ∉ secs)
    (ps : List (α × β)) :
    alookup k (secs.foldl (fun d sec => popKey sec d) ps) = alookup k ps := by
  induction secs generalizing ps with
  | nil => simp
  | cons s rest ih =>
    simp only [List.mem_cons] at hmem
    push_neg at hmem
    simp only [List.foldl_cons]
    rw [ih hmem.2, alookup_popKey_ne hmem.1]

theorem alookup_foldl_popKey_of_mem {secs : List α} {ps : List (α × β)}
    (hn : (keys ps).Nodup) (hmem : k ∈ secs) :
    alookup k (secs.foldl (fun d sec => popKey sec d) ps) = none := by
  induction secs generalizing ps with
  | nil => simp at hmem
  | cons s rest ih =>
    simp only [List.foldl_cons]
    by_cases hk : k = s
    · subst hk
      exact alookup_eq_none_of_sublist (foldl_popKey_sublist rest (popKey k ps))
        (alookup_popKey_self hn k)
    · rcases List.mem_cons.mp hmem with h1 | h1
      · exact absurd h1 hk
      · exact ih (nodup_keys_of_sublist (popKey_sublist s ps) hn) h1

end AListLemmas

/-! ## Lemmas about single `Mapper` operations -/

namespace Mapper

theorem is_secondary_add_mapping_self (st : MapperState) (p s : MapperEntry) :
    is_secondary (add_mapping st p s) s = true := by
  simp [is_secondary, add_mapping, alookup_setVal_self]

theorem is_primary_add_mapping_self (st : MapperState) (p s : MapperEntry) :
    is_primary (add_mapping st p s) p = true := by
  simp [is_primary, add_mapping, alookup_appendVal_self]

theorem is_secondary_for_add_mapping_self (st : MapperState) (p s : MapperEntry) :
    is_secondary_for (add_mapping st p s) s p = true := by
  simp [is_secondary_for, is_primary, add_mapping, alookup_appendVal_self]

/-- A successful `map_secondary` call either was already satisfied (no-op) or
freshly linked an unknown secondary. -/
theorem map_secondary_ok_elim {st st2 : MapperState} {s p : MapperEntry}
    (h : map_secondary st s p = .ok st2) :
    p.source_id ≠ s.source_id ∧
      ((is_secondary st s = true ∧ is_secondary_for st s p = true ∧ st2 = st) ∨
       (is_secondary st s = false ∧ st2 = add_mapping st p s)) := by
  unfold map_secondary at h
  by_cases h1 : p.source_id = s.source_id
  · rw [if_pos h1] at h
    exact absurd h (by simp)
  · rw [if_neg h1] at h
    refine ⟨h1, ?_⟩
    by_cases h2 : is_secondary st s
    · rw [if_pos h2] at h
      by_cases h3 : is_secondary_for st s p
      · rw [if_pos h3] at h
        exact Or.inl ⟨h2, h3, (Except.ok.injEq _ _).mp h.symm⟩
      · rw [if_neg h3] at h
        exact absurd h (by simp)
    · rw [if_neg h2] at h
      exact Or.inr ⟨by simpa using h2, ((Except.ok.injEq _ _).mp h).symm⟩

end Mapper

/-! ## Claim C9: idempotence of `map_secondary` -/

/-- Claim C9: if `map_secondary(s, p)` succeeds on keys with different
source ids, an immediate second call with the same arguments raises no error
and returns the very same forest state. -/
theorem map_secondary_idempotent (st st2 : MapperState) (s p : MapperEntry)
    (hsrc : s.source_id ≠ p.source_id) (h : Mapper.map_secondary st s p = .ok st2) :
    Mapper.map_secondary st2 s p = .ok st2 := by
  obtain ⟨h1, hcase⟩ := Mapper.map_secondary_ok_elim h
  rcases hcase with ⟨h2, h3, rfl⟩ | ⟨h2, rfl⟩
  · unfold Mapper.map_secondary
    rw [if_neg h1, if_pos h2, if_pos h3]
  · unfold Mapper.map_secondary
    rw [if_neg h1, if_pos (Mapper.is_secondary_add_mapping_self st p s),
      if_pos (Mapper.is_secondary_for_add_mapping_self st p s)]

/-- Witness for C9 at a concrete input: mapping `(s2,2)` under `(s1,1)` in the
empty forest and repeating the call. -/
theorem map_secondary_idempotent_witness :
    Mapper.map_secondary
        ⟨[(⟨"s1", 1⟩, [⟨"s2", 2⟩])], [(⟨"s2", 2⟩, ⟨"s1", 1⟩)]⟩ ⟨"s2", 2⟩ ⟨"s1", 1⟩ =
      .ok ⟨[(⟨"s1", 1⟩, [⟨"s2", 2⟩])], [(⟨"s2", 2⟩, ⟨"s1", 1⟩)]⟩ :=
  map_secondary_idempotent Mapper.empty
    ⟨[(⟨"s1", 1⟩, [⟨"s2", 2⟩])], [(⟨"s2", 2⟩, ⟨"s1", 1⟩)]⟩
    ⟨"s2", 2⟩ ⟨"s1", 1⟩ (by decide) rfl

/-! ## Claim C3: the Unknown/Unknown transition of the orchestrator -/

/-- Claim C3, corrected: in the Unknown/Unknown case the orchestrator calls
`map_secondary(buffer_entry, match_entry)`, so the CLOSEST MATCH becomes the
Primary and the reference (buffer) detection becomes its Secondary. -/
theorem updatePair_unknown_unknown (st : MapperState) (m b : MapperEntry)
    (h1 : Mapper.is_primary st m = false) (h2 : Mapper.is_secondary st m = false)
    (h3 : Mapper.is_primary st b = false) (h4 : Mapper.is_secondary st b = false)
    (hsrc : m.source_id ≠ b.source_id) :
    Orchestrator.updatePair st m b = .ok (Mapper.add_mapping st m b) ∧
      Mapper.is_primary (Mapper.add_mapping st m b) m = true ∧
      Mapper.is_secondary (Mapper.add_mapping st m b) b = true := by
  have hm : Orchestrator.updatePair st m b = Mapper.map_secondary st b m := by
    unfold Orchestrator.updatePair
    rw [h1, h2, h3, h4]
  refine ⟨?_, Mapper.is_primary_add_mapping_self st m b,
    Mapper.is_secondary_add_mapping_self st m b⟩
  rw [hm]
  unfold Mapper.map_secondary
  rw [if_neg hsrc, if_neg (by simp [h4])]

/-- Witness for C3: both entries unknown in the empty forest. -/
theorem updatePair_unknown_unknown_witness :
    Orchestrator.updatePair Mapper.empty ⟨"s1", 1⟩ ⟨"s2", 2⟩ =
        .ok (Mapper.add_mapping Mapper.empty ⟨"s1", 1⟩ ⟨"s2", 2⟩) ∧
      Mapper.is_primary (Mapper.add_mapping Mapper.empty ⟨"s1", 1⟩ ⟨"s2", 2⟩) ⟨"s1", 1⟩ = true ∧
      Mapper.is_secondary (Mapper.add_mapping Mapper.empty ⟨"s1", 1⟩ ⟨"s2", 2⟩) ⟨"s2", 2⟩ = true :=
  updatePair_unknown_unknown Mapper.empty ⟨"s1", 1⟩ ⟨"s2", 2⟩ rfl rfl rfl rfl (by decide)

/-- Counterexample to C3 as stated: with both keys Unknown, the reference
(buffer) entry `("s2", 2)` does NOT become Primary — it becomes Secondary of
the closest-match entry `("s1", 1)`. -/
theorem updatePair_unknown_unknown_counterexample :
    (Orchestrator.updatePair Mapper.empty ⟨"s1", 1⟩ ⟨"s2", 2⟩).toOption.map
        (fun st => (Mapper.is_primary st ⟨"s2", 2⟩, Mapper.is_secondary st ⟨"s2", 2⟩,
                    Mapper.is_primary st ⟨"s1", 1⟩)) =
      some (false, true, true) := by decide

/-! ## Claim C4: a `MapperError` and the remaining clusters of an event -/

/-- Claim C4, corrected: the `try/except MapperError` of `_update_mappings`
wraps the whole per-event loop, so a `MapperError` raised for one pair makes
the loop return with the state accumulated so far and the remaining pairs of
the event are NOT processed. -/
theorem run_pairs_error_aborts_event (st : MapperState) (m b : MapperEntry)
    (rest : List (MapperEntry × MapperEntry)) (e : String)
    (h : Orchestrator.updatePair st m b = .error e) :
    Orchestrator.run_pairs st ((m, b) :: rest) = st := by
  simp [Orchestrator.run_pairs, h]

/-- Witness for C4: a same-source pair raises, and the following pair of the
same event is left unprocessed. -/
theorem run_pairs_error_aborts_event_witness :
    Orchestrator.run_pairs Mapper.empty
        [(⟨"s1", 1⟩, ⟨"s1", 2⟩), (⟨"s1", 3⟩, ⟨"s2", 4⟩)] = Mapper.empty :=
  run_pairs_error_aborts_event Mapper.empty ⟨"s1", 1⟩ ⟨"s1", 2⟩
    [(⟨"s1", 3⟩, ⟨"s2", 4⟩)] ("Primary and secondary have the same source_id") rfl

/-- Counterexample to C4 as stated: after the first cluster raises, the second
cluster of the same event is not processed (its keys stay unknown), although
processing it alone would have recorded the mapping. -/
theorem run_pairs_error_skips_remaining_counterexample :
    Orchestrator.run_pairs Mapper.empty
        [(⟨"s1", 1⟩, ⟨"s1", 2⟩), (⟨"s1", 3⟩, ⟨"s2", 4⟩)] = Mapper.empty ∧
      Mapper.is_known Mapper.empty ⟨"s1", 3⟩ = false ∧
      (Orchestrator.updatePair Mapper.empty ⟨"s1", 3⟩ ⟨"s2", 4⟩).toOption.map
          (fun st => Mapper.is_known st ⟨"s1", 3⟩) = some true := by decide

/-! ## Claim C5: combinations outside the transition table -/

/-- Claim C5, corrected: a 4-tuple of role predicates without its own `case`
in `_update_mappings` falls into the log-only wildcard, leaving the forest
unchanged and raising nothing.  (Both-Primary, however, IS handled: it demotes
the buffer entry — see the counterexample.) -/
theorem updatePair_unhandled_no_mutation (st : MapperState) (m b : MapperEntry)
    (h : Orchestrator.handledTuple
        (Mapper.is_primary st m, Mapper.is_secondary st m,
         Mapper.is_primary st b, Mapper.is_secondary st b) = false) :
    Orchestrator.updatePair st m b = .ok st := by
  cases hpm : Mapper.is_primary st m <;> cases hsm : Mapper.is_secondary st m <;>
    cases hpb : Mapper.is_primary st b <;> cases hsb : Mapper.is_secondary st b <;>
    rw [hpm, hsm, hpb, hsb] at h <;>
    simp only [Orchestrator.handledTuple] at h <;>
    (try simp at h) <;>
    (unfold Orchestrator.updatePair; rw [hpm, hsm, hpb, hsb])

/-- Witness for C5: a Secondary/Secondary pair is skipped without mutation. -/
theorem updatePair_unhandled_no_mutation_witness :
    Orchestrator.updatePair
        ⟨[(⟨"s1", 1⟩, [⟨"s2", 2⟩, ⟨"s3", 3⟩])],
         [(⟨"s2", 2⟩, ⟨"s1", 1⟩), (⟨"s3", 3⟩, ⟨"s1", 1⟩)]⟩ ⟨"s2", 2⟩ ⟨"s3", 3⟩ =
      .ok ⟨[(⟨"s1", 1⟩, [⟨"s2", 2⟩, ⟨"s3", 3⟩])],
           [(⟨"s2", 2⟩, ⟨"s1", 1⟩), (⟨"s3", 3⟩, ⟨"s1", 1⟩)]⟩ :=
  updatePair_unhandled_no_mutation
    ⟨[(⟨"s1", 1⟩, [⟨"s2", 2⟩, ⟨"s3", 3⟩])],
     [(⟨"s2", 2⟩, ⟨"s1", 1⟩), (⟨"s3", 3⟩, ⟨"s1", 1⟩)]⟩ ⟨"s2", 2⟩ ⟨"s3", 3⟩ (by decide)

/-- Counterexample to C5 as stated: when both entries are Primary the
orchestrator does NOT skip — it demotes the buffer entry under the match
entry, changing the forest. -/
theorem updatePair_both_primary_mutates_counterexample :
    Mapper.is_primary bothPrimSt ⟨"s1", 1⟩ = true ∧
      Mapper.is_primary bothPrimSt ⟨"s2", 3⟩ = true ∧
      (Orchestrator.updatePair bothPrimSt ⟨"s1", 1⟩ ⟨"s2", 3⟩).toOption.map
        (fun s2 => (decide (s2 = bothPrimSt), Mapper.is_secondary s2 ⟨"s2", 3⟩)) =
      some (false, true) := by decide

/-! ## Claims C6 and C10: `MessageBuffer.pop_slice` and buffer health -/

namespace Buffer

theorem is_healthy_nil (t : ℚ) : is_healthy t [] = false := by
  simp [is_healthy]

theorem is_healthy_singleton {t : ℚ} (ht : 0 < t) (m : ℚ) : is_healthy t [m] = false := by
  simp [is_healthy]
  linarith

theorem popLoop_snd_not_healthy (t : ℚ) (ms : List ℚ) :
    is_healthy t (popLoop t ms).2 = false := by
  induction ms with
  | nil => simp [popLoop, is_healthy_nil]
  | cons m rest ih =>
    by_cases h : is_healthy t (m :: rest) = true
    · simp only [popLoop, h, if_true]
      exact ih
    · simp only [popLoop, h, if_false]
      simpa using h

theorem popLoop_fst_nil (t : ℚ) (ms : List ℚ) (h : (popLoop t ms).1 = []) :
    (popLoop t ms).2 = ms := by
  cases ms with
  | nil => simp [popLoop]
  | cons m rest =>
    by_cases hh : is_healthy t (m :: rest) = true
    · simp [popLoop, hh] at h
    · simp [popLoop, hh]

theorem is_healthy_cons_tail_ne_nil {t m : ℚ} {rest : List ℚ} (ht : 0 < t)
    (h : is_healthy t (m :: rest) = true) : rest ≠ [] := by
  intro hrest
  subst hrest
  rw [is_healthy_singleton ht] at h
  exact absurd h (by simp)

theorem popLoop_fst_ne_nil_snd {t : ℚ} (ht : 0 < t) (ms : List ℚ)
    (h : (popLoop t ms).1 ≠ []) : (popLoop t ms).2 ≠ [] := by
  induction ms with
  | nil => simp [popLoop] at h
  | cons m rest ih =>
    by_cases hh : is_healthy t (m :: rest) = true
    · simp only [popLoop, hh, if_true]
      by_cases hf : (popLoop t rest).1 = []
      · rw [popLoop_fst_nil t rest hf]
        exact is_healthy_cons_tail_ne_nil ht hh
      · exact ih hf
    · simp [popLoop, hh] at h

theorem pop_slice_fst_ne_nil_elim {t ml : ℚ} {ms : List ℚ}
    (h : (pop_slice t ml ms).1 ≠ []) :
    pop_slice t ml ms = popLoop t ms ∧
      t ≤ ms.getLastD 0 - ms.getD (cutoffIndex ml ms) 0 := by
  by_cases h0 : ms = []
  · subst h0
    simp [pop_slice] at h
  · by_cases h1 : t ≤ ms.getLastD 0 - ms.getD (cutoffIndex ml ms) 0
    · have h2 : ¬ (ms.getLast?.getD 0 - (ms[cutoffIndex ml ms]?).getD 0 < t) := by
        rw [List.getLastD_eq_getLast?, List.getD_eq_getElem?_getD] at h1
        exact not_lt.mpr h1
      refine ⟨?_, h1⟩
      simp [pop_slice, h0, h2]
    · have h2 : ms.getLast?.getD 0 - (ms[cutoffIndex ml ms]?).getD 0 < t := by
        rw [List.getLastD_eq_getLast?, List.getD_eq_getElem?_getD] at h1
        exact not_le.mp h1
      simp [pop_slice, h0, h2] at h

end Buffer

/-- Claim C6, corrected: `pop_slice` on the empty buffer returns the empty
list and removes nothing; a non-empty slice is returned only when, at call
time, the messages from the cutoff index onward still span the target window —
but immediately AFTER a non-empty pop the remaining buffer no longer satisfies
`is_healthy()` (the claim's "remainder still healthy" direction is exactly
inverted by the `while is_healthy: pop` loop). -/
theorem pop_slice_guarantees (t ml : ℚ) (ms : List ℚ) :
    Buffer.pop_slice t ml [] = ([], []) ∧
      ((Buffer.pop_slice t ml ms).1 ≠ [] →
        t ≤ ms.getLastD 0 - ms.getD (Buffer.cutoffIndex ml ms) 0 ∧
          Buffer.is_healthy t (Buffer.pop_slice t ml ms).2 = false) := by
  refine ⟨by simp [Buffer.pop_slice], fun h => ?_⟩
  obtain ⟨heq, hcut⟩ := Buffer.pop_slice_fst_ne_nil_elim h
  refine ⟨hcut, ?_⟩
  rw [heq]
  exact Buffer.popLoop_snd_not_healthy t ms

/-- Counterexample to C6 as stated: with target window 10 and minimum slice
length 5, popping the buffer `[0, 10, 20]` returns the non-empty slice
`[0, 10]`, and the remainder `[20]` does NOT satisfy `is_healthy`. -/
theorem pop_slice_remainder_unhealthy_counterexample :
    Buffer.pop_slice 10 5 [0, 10, 20] = ([0, 10], [20]) ∧
      Buffer.is_healthy 10 [20] = false := by
  constructor
  · simp [Buffer.pop_slice, Buffer.cutoffIndex, Buffer.popLoop, Buffer.is_healthy,
      List.findIdx?]
    norm_num
  · simp [Buffer.is_healthy]
    try norm_num

/-- Witness for C6 at the same concrete buffer. -/
theorem pop_slice_guarantees_witness :
    (10 : ℚ) ≤ [(0 : ℚ), 10, 20].getLastD 0 -
        [(0 : ℚ), 10, 20].getD (Buffer.cutoffIndex 5 [0, 10, 20]) 0 ∧
      Buffer.is_healthy 10 (Buffer.pop_slice 10 5 [0, 10, 20]).2 = false :=
  (pop_slice_guarantees 10 5 [0, 10, 20]).2 (by
    have hps : Buffer.pop_slice 10 5 [(0 : ℚ), 10, 20] = ([0, 10], [20]) := by
      simp [Buffer.pop_slice, Buffer.cutoffIndex, Buffer.popLoop, Buffer.is_healthy,
        List.findIdx?]
      norm_num
    rw [hps]
    simp)

/-- Claim C10: with a strictly positive target window size, whenever
`pop_slice` returns a non-empty slice the buffer still holds at least one
message afterwards, and the remaining messages span strictly less than the
target window (`is_healthy` is false). -/
theorem pop_slice_nonempty_leaves_unhealthy_remainder (t ml : ℚ) (ms : List ℚ)
    (ht : 0 < t) (h : (Buffer.pop_slice t ml ms).1 ≠ []) :
    (Buffer.pop_slice t ml ms).2 ≠ [] ∧
      Buffer.is_healthy t (Buffer.pop_slice t ml ms).2 = false := by
  obtain ⟨heq, _⟩ := Buffer.pop_slice_fst_ne_nil_elim h
  rw [heq] at h ⊢
  exact ⟨Buffer.popLoop_fst_ne_nil_snd ht ms h, Buffer.popLoop_snd_not_healthy t ms⟩

/-- Witness for C10 at the concrete buffer `[0, 10, 20]`. -/
theorem pop_slice_nonempty_leaves_unhealthy_remainder_witness :
    (Buffer.pop_slice 10 5 [(0 : ℚ), 10, 20]).2 ≠ [] ∧
      Buffer.is_healthy 10 (Buffer.pop_slice 10 5 [(0 : ℚ), 10, 20]).2 = false :=
  pop_slice_nonempty_leaves_unhealthy_remainder 10 5 [0, 10, 20] (by norm_num) (by
    have hps : Buffer.pop_slice 10 5 [(0 : ℚ), 10, 20] = ([0, 10], [20]) := by
      simp [Buffer.pop_slice, Buffer.cutoffIndex, Buffer.popLoop, Buffer.is_healthy,
        List.findIdx?]
      norm_num
    rw [hps]
    simp)

/-! ## Claim C8: `ObjectPositionModel.get_position` -/

/-- Claim C8: with no observations the position is absent; with one
observation `(t0, c0)` every query returns `c0`; after observing `(t0, c0)`
then `(t1, c1)` the model holds exactly those two samples, `get_position t1 =
c1`, the position is linear in the query time with component-wise velocity
`(c1 - c0) / (t1 - t0)` when `t1 ≠ t0`, and with `t1 = t0` the velocity is
zero, so every query returns the newest coordinate `c1`. -/
theorem get_position_spec (t0 t1 t : ℚ) (c0 c1 : Coord) :
    PositionModel.get_position [] t = none ∧
      PositionModel.get_position [⟨t0, c0⟩] t = some c0 ∧
      PositionModel.observe (PositionModel.observe [] c0 t0) c1 t1 = [⟨t0, c0⟩, ⟨t1, c1⟩] ∧
      PositionModel.get_position [⟨t0, c0⟩, ⟨t1, c1⟩] t1 = some c1 ∧
      (t0 ≠ t1 →
        PositionModel.get_position [⟨t0, c0⟩, ⟨t1, c1⟩] t =
          some ⟨c1.lat + (c1.lat - c0.lat) / (t1 - t0) * (t - t1),
                c1.lon + (c1.lon - c0.lon) / (t1 - t0) * (t - t1)⟩) ∧
      (t0 = t1 → PositionModel.get_position [⟨t0, c0⟩, ⟨t1, c1⟩] t = some c1) := by
  refine ⟨rfl, rfl, by simp [PositionModel.observe], ?_, ?_, ?_⟩
  · by_cases h : t1 - t0 = 0 <;>
      simp [PositionModel.get_position, PositionModel.get_speed, h, List.getLastD]
  · intro h
    have hne : t1 - t0 ≠ 0 := sub_ne_zero.mpr (Ne.symm h)
    simp [PositionModel.get_position, PositionModel.get_speed, hne, List.getLastD]
  · intro h
    subst h
    simp [PositionModel.get_position, PositionModel.get_speed, List.getLastD]

/-- Witness for C8: two observations one second apart, queried two seconds
past the newest. -/
theorem get_position_spec_witness :
    PositionModel.get_position [⟨0, ⟨0, 0⟩⟩, ⟨1, ⟨1, 2⟩⟩] 3 =
      some ⟨1 + (1 - 0) / (1 - 0) * (3 - 1), 2 + (2 - 0) / (1 - 0) * (3 - 1)⟩ :=
  ((get_position_spec 0 1 3 ⟨0, 0⟩ ⟨1, 2⟩).2.2.2.2.1) (by norm_num)

/-! ## Claim C2: expiration does not unlink entries from the forest -/

/-- Claim C2 is right and the code is wrong (the unlinking block inside
`_expire_entries` is commented out, with a TODO): at time 100, far past the
expiration age 30, the sweep drops only the last-seen record; the forest keeps
the entry, so `is_known` still answers `true` — the repository's own
`test_expiration` asserts it must be `false`. -/
theorem expired_entry_still_known :
    (ExpiringMapper.wrapped_is_known 100 expSt1 ⟨"s1", 1⟩).1 = true ∧
      (ExpiringMapper.expire_entries 100 expSt1).mapper = expSt1.mapper ∧
      alookup ⟨"s1", 1⟩ (ExpiringMapper.expire_entries 100 expSt1).entries_last_seen = none ∧
      expSt1.entry_expiration_age_s < 100 - 0 := by
  norm_num +decide [expSt1, expInit, ExpiringMapper.wrapped_map_secondary, ExpiringMapper.touch,
    ExpiringMapper.expire_entries, ExpiringMapper.wrapped_is_known, Mapper.map_secondary,
    Mapper.is_secondary, Mapper.is_secondary_for, Mapper.is_primary, Mapper.is_known,
    Mapper.add_mapping, Mapper.empty, alookup, setVal, appendVal, Except.map, Except.toOption,
    List.filter]


/-! ## Claim C7: secondary/primary source ids under guarded call sequences -/

namespace Mapper

/-- Elimination for a successful `remap_secondary` call. -/
theorem remap_secondary_ok_elim {st st2 : MapperState} {s np : MapperEntry}
    (h : remap_secondary st s np = .ok st2) :
    s.source_id ≠ np.source_id ∧ is_secondary st s = true ∧
      (st2 = st ∨ (is_secondary_for st s np = false ∧
        ∃ old, alookup s st.primary_by_secondary = some old ∧
        st2 = ⟨appendVal np s (removeVal old s st.secondaries_by_primary),
               setVal s np st.primary_by_secondary⟩)) := by
  unfold remap_secondary at h
  split_ifs at h with h1 h2 h3
  all_goals try exact Except.noConfusion h
  · have hsec : is_secondary st s = true := by simpa using h2
    exact ⟨h1, hsec, Or.inl ((Except.ok.injEq _ _).mp h).symm⟩
  · have hsec : is_secondary st s = true := by simpa using h2
    refine ⟨h1, hsec, ?_⟩
    rcases halt : alookup s st.primary_by_secondary with _ | old
    · simp [halt] at h
    · simp only [halt] at h
      exact Or.inr ⟨by simpa using h3, old, rfl, ((Except.ok.injEq _ _).mp h).symm⟩

/-- Elimination for a successful `demote_primary` call. -/
theorem demote_primary_ok_elim {st st2 : MapperState} {p np : MapperEntry} {mig : Bool}
    (h : demote_primary st p np mig = .ok st2) :
    p.source_id ≠ np.source_id ∧ is_primary st p = true ∧ is_secondary st np = false ∧
      st2 = (if mig then (alookup p st.secondaries_by_primary).getD [] else []).foldl
        (fun s child => add_mapping s np child)
        (add_mapping (remove_primary st p true) np p) := by
  unfold demote_primary at h
  split_ifs at h with h1 h2 h3
  all_goals try exact Except.noConfusion h
  all_goals try simp only [Bool.or_eq_true, not_or, Bool.not_eq_true] at h2
  all_goals simp only [Except.ok.injEq] at h
  · rw [if_pos h3]
    exact ⟨h1, by simpa using h2.1, by simpa using h2.2, h.symm⟩
  · rw [if_neg h3]
    refine ⟨h1, by simpa using h2.1, by simpa using h2.2, ?_⟩
    simpa using h.symm

/-- The `primary_by_secondary` side of the child-migration fold of
`demote_primary`. -/
theorem foldl_add_mapping_ps (np : MapperEntry) (cs : List MapperEntry) (base : MapperState) :
    (cs.foldl (fun s child => add_mapping s np child) base).primary_by_secondary =
      cs.foldl (fun acc child => setVal child np acc) base.primary_by_secondary := by
  induction cs generalizing base with
  | nil => rfl
  | cons c rest ih =>
    simp only [List.foldl_cons]
    exact ih (add_mapping base np c)

theorem nodup_keys_foldl_setVal (np : MapperEntry) (cs : List MapperEntry)
    {base : List (MapperEntry × MapperEntry)} (h : (keys base).Nodup) :
    (keys (cs.foldl (fun acc c => setVal c np acc) base)).Nodup := by
  induction cs generalizing base with
  | nil => exact h
  | cons c rest ih =>
    simp only [List.foldl_cons]
    exact ih (nodup_keys_setVal h c np)

theorem alookup_foldl_popKey_some {secs : List MapperEntry}
    {ps : List (MapperEntry × MapperEntry)} {k v : MapperEntry}
    (hn : (keys ps).Nodup)
    (h : alookup k (secs.foldl (fun d sec => popKey sec d) ps) = some v) :
    alookup k ps = some v := by
  by_cases hm : k ∈ secs
  · rw [alookup_foldl_popKey_of_mem hn hm] at h
    exact absurd h (by simp)
  · rwa [alookup_foldl_popKey_of_not_mem hm] at h

theorem sources_differ_foldl_setVal {np : MapperEntry} {cs : List MapperEntry}
    {base : List (MapperEntry × MapperEntry)}
    (hbase : ∀ s p, alookup s base = some p → s.source_id ≠ p.source_id)
    (hcs : ∀ c ∈ cs, c.source_id ≠ np.source_id) :
    ∀ s p, alookup s (cs.foldl (fun acc c => setVal c np acc) base) = some p →
      s.source_id ≠ p.source_id := by
  induction cs generalizing base with
  | nil => simpa using hbase
  | cons c rest ih =>
    simp only [List.foldl_cons]
    refine ih ?_ (fun x hx => hcs x (List.mem_cons_of_mem c hx))
    intro s p hl
    by_cases hs : s = c
    · subst hs
      rw [alookup_setVal_self] at hl
      obtain rfl := Option.some.inj hl
      exact hcs s (by simp)
    · rw [alookup_setVal_ne hs] at hl
      exact hbase s p hl

theorem map_secondary_preserves_inv7 {st st2 : MapperState} {s p : MapperEntry}
    (h7 : inv7 st) (h : map_secondary st s p = .ok st2) : inv7 st2 := by
  obtain ⟨hsrc, hcase⟩ := map_secondary_ok_elim h
  rcases hcase with ⟨_, _, rfl⟩ | ⟨_, rfl⟩
  · exact h7
  · obtain ⟨hn, hs⟩ := h7
    refine ⟨nodup_keys_setVal hn s p, ?_⟩
    intro s1 p1 hl
    change alookup s1 (setVal s p st.primary_by_secondary) = some p1 at hl
    by_cases he : s1 = s
    · subst he
      rw [alookup_setVal_self] at hl
      obtain rfl := Option.some.inj hl
      exact fun hh => hsrc hh.symm
    · rw [alookup_setVal_ne he] at hl
      exact hs s1 p1 hl

theorem remap_secondary_preserves_inv7 {st st2 : MapperState} {s np : MapperEntry}
    (h7 : inv7 st) (h : remap_secondary st s np = .ok st2) : inv7 st2 := by
  obtain ⟨hsrc, _, hcase⟩ := remap_secondary_ok_elim h
  rcases hcase with rfl | ⟨_, old, _, rfl⟩
  · exact h7
  · obtain ⟨hn, hs⟩ := h7
    refine ⟨nodup_keys_setVal hn s np, ?_⟩
    intro s1 p1 hl
    change alookup s1 (setVal s np st.primary_by_secondary) = some p1 at hl
    by_cases he : s1 = s
    · subst he
      rw [alookup_setVal_self] at hl
      obtain rfl := Option.some.inj hl
      exact hsrc
    · rw [alookup_setVal_ne he] at hl
      exact hs s1 p1 hl

/-- The secondary dictionary after `_remove_primary(primary, True)`: all of
the primary's recorded secondaries are popped. -/
theorem remove_primary_ps (st : MapperState) (p : MapperEntry) :
    (remove_primary st p true).primary_by_secondary =
      ((alookup p st.secondaries_by_primary).getD []).foldl
        (fun d sec => popKey sec d) st.primary_by_secondary := by
  rcases halt : alookup p st.secondaries_by_primary with _ | l <;>
    simp [remove_primary, halt]

theorem demote_primary_preserves_inv7 {st st2 : MapperState} {p np : MapperEntry} {mig : Bool}
    (h7 : inv7 st)
    (hg : ∀ c ∈ (if mig then (alookup p st.secondaries_by_primary).getD [] else []),
      c.source_id ≠ np.source_id)
    (h : demote_primary st p np mig = .ok st2) : inv7 st2 := by
  obtain ⟨hsrc, hp, hnp, rfl⟩ := demote_primary_ok_elim h
  obtain ⟨hn, hs⟩ := h7
  have hrp := remove_primary_ps st p
  have hn1 : (keys (remove_primary st p true).primary_by_secondary).Nodup := by
    rw [hrp]
    exact nodup_keys_of_sublist (foldl_popKey_sublist _ _) hn
  refine ⟨?_, ?_⟩
  · rw [foldl_add_mapping_ps]
    exact nodup_keys_foldl_setVal np _ (nodup_keys_setVal hn1 p np)
  · intro s1 p1 hl
    rw [foldl_add_mapping_ps] at hl
    refine sources_differ_foldl_setVal ?_ hg s1 p1 hl
    intro s2 p2 hl2
    change alookup s2 (setVal p np (remove_primary st p true).primary_by_secondary) =
      some p2 at hl2
    by_cases he : s2 = p
    · subst he
      rw [alookup_setVal_self] at hl2
      obtain rfl := Option.some.inj hl2
      exact hsrc
    · rw [alookup_setVal_ne he, hrp] at hl2
      exact hs s2 p2 (alookup_foldl_popKey_some hn hl2)

theorem stepCall_preserves_inv7 (st : MapperState) (c : MapperCall) (h7 : inv7 st)
    (hg : sourceGuard st c = true) : inv7 (stepCall st c) := by
  cases c with
  | mapSec s p =>
    cases hr : map_secondary st s p with
    | ok st2 =>
      simpa [stepCall, hr] using map_secondary_preserves_inv7 h7 hr
    | error e => simpa [stepCall, hr] using h7
  | remapSec s np =>
    cases hr : remap_secondary st s np with
    | ok st2 =>
      simpa [stepCall, hr] using remap_secondary_preserves_inv7 h7 hr
    | error e => simpa [stepCall, hr] using h7
  | demote p np mig =>
    cases hr : demote_primary st p np mig with
    | ok st2 =>
      have hg2 : ∀ c2 ∈ (if mig then (alookup p st.secondaries_by_primary).getD [] else []),
          c2.source_id ≠ np.source_id := by
        cases mig with
        | false => simp
        | true =>
          simp only [sourceGuard, List.all_eq_true] at hg
          intro c2 hc2
          simpa using hg c2 (by simpa using hc2)
      simpa [stepCall, hr] using demote_primary_preserves_inv7 h7 hg2 hr
    | error e => simpa [stepCall, hr] using h7

theorem guardedRun_sourceGuard_inv7 (cs : List MapperCall) :
    ∀ st : MapperState, inv7 st → guardedRun sourceGuard st cs = true →
      inv7 (runCalls st cs) := by
  induction cs with
  | nil =>
    intro st h _
    simpa [runCalls] using h
  | cons c rest ih =>
    intro st h hg
    rw [guardedRun, Bool.and_eq_true] at hg
    simp only [runCalls, List.foldl_cons]
    exact ih (stepCall st c) (stepCall_preserves_inv7 st c h hg.1) hg.2

end Mapper

/-- Claim C7, corrected: for call sequences from the empty forest in which
every `demote_primary(·, new_primary, migrate_children=true)` call is only
made when none of the demoted primary's current secondaries shares
`new_primary`'s source_id, every Secondary's source_id differs from its
Primary's.  (Unrestricted sequences violate it — see the counterexample: the
migration loop of `demote_primary` re-attaches children without any source
check.) -/
theorem mapper_secondary_sources_differ_guarded (cs : List MapperCall)
    (h : Mapper.guardedRun Mapper.sourceGuard Mapper.empty cs = true)
    (s p : MapperEntry)
    (hl : alookup s (Mapper.runCalls Mapper.empty cs).primary_by_secondary = some p) :
    s.source_id ≠ p.source_id := by
  have h0 : Mapper.inv7 Mapper.empty := by
    constructor
    · simp [Mapper.empty, keys]
    · intro s1 p1 hl1
      simp [Mapper.empty, alookup] at hl1
  exact (Mapper.guardedRun_sourceGuard_inv7 cs Mapper.empty h0 h).2 s p hl

/-- Witness for C7: a guarded demote-with-migration, whose migrated child
`("s2",2)` ends as Secondary of `("s3",3)` with a different source. -/
theorem mapper_secondary_sources_differ_guarded_witness :
    (⟨"s2", 2⟩ : MapperEntry).source_id ≠ (⟨"s3", 3⟩ : MapperEntry).source_id :=
  mapper_secondary_sources_differ_guarded
    [.mapSec ⟨"s2", 2⟩ ⟨"s1", 1⟩, .demote ⟨"s1", 1⟩ ⟨"s3", 3⟩ true]
    (by decide) ⟨"s2", 2⟩ ⟨"s3", 3⟩ (by decide)

/-- Counterexample to C7 as stated: demoting `("s1",1)` under `("s2",3)` with
`migrate_children=true` re-attaches the child `("s2",2)` to a primary of ITS
OWN source `s2`. -/
theorem demote_migrate_same_source_child_counterexample :
    alookup ⟨"s2", 2⟩ (Mapper.runCalls Mapper.empty
        [.mapSec ⟨"s2", 2⟩ ⟨"s1", 1⟩,
         .demote ⟨"s1", 1⟩ ⟨"s2", 3⟩ true]).primary_by_secondary = some ⟨"s2", 3⟩ ∧
      (⟨"s2", 2⟩ : MapperEntry).source_id = (⟨"s2", 3⟩ : MapperEntry).source_id := by decide

/-! ## Claim C1: the forest invariant under role-guarded call sequences -/

namespace Mapper

theorem is_secondary_eq_false {st : MapperState} {e : MapperEntry} :
    is_secondary st e = false ↔ alookup e st.primary_by_secondary = none := by
  unfold is_secondary
  rcases alookup e st.primary_by_secondary with _ | v <;> simp

theorem is_primary_eq_false {st : MapperState} {e : MapperEntry} :
    is_primary st e = false ↔ alookup e st.secondaries_by_primary = none := by
  unfold is_primary
  rcases alookup e st.secondaries_by_primary with _ | v <;> simp

theorem forestInv_empty : ForestInv empty := by
  refine ⟨?_, ?_, ?_, ?_, ?_, ?_⟩ <;> simp [empty, keys, alookup]

/-- `_add_mapping(p, s)` preserves the invariant when `s` is fully unknown and
`p` is not a secondary. -/
theorem forestInv_add_mapping {st : MapperState} {p s : MapperEntry}
    (inv : ForestInv st)
    (hs_ps : alookup s st.primary_by_secondary = none)
    (hs_bp : alookup s st.secondaries_by_primary = none)
    (hp_ps : alookup p st.primary_by_secondary = none)
    (hsp : s ≠ p) :
    ForestInv (add_mapping st p s) := by
  have hps : p ≠ s := Ne.symm hsp
  constructor
  · exact nodup_keys_appendVal inv.nodup_bp p s
  · exact nodup_keys_setVal inv.nodup_ps s p
  · intro s1 p1 hl
    change alookup s1 (setVal s p st.primary_by_secondary) = some p1 at hl
    by_cases he : s1 = s
    · subst he
      rw [alookup_setVal_self] at hl
      have hpp := Option.some.inj hl
      rw [← hpp]
      exact ⟨_, alookup_appendVal_self p s1 st.secondaries_by_primary, by simp⟩
    · rw [alookup_setVal_ne he] at hl
      obtain ⟨l, hll, hmem⟩ := inv.coh_ps_bp s1 p1 hl
      by_cases hpe : p1 = p
      · rw [hpe] at hll ⊢
        refine ⟨_, alookup_appendVal_self p s st.secondaries_by_primary, ?_⟩
        rw [hll]
        simp only [Option.getD_some]
        exact List.mem_append.mpr (Or.inl hmem)
      · refine ⟨l, ?_, hmem⟩
        change alookup p1 (appendVal p s st.secondaries_by_primary) = some l
        rw [alookup_appendVal_ne hpe]
        exact hll
  · intro p1 l1 hl x hx
    change alookup p1 (appendVal p s st.secondaries_by_primary) = some l1 at hl
    by_cases hpe : p1 = p
    · rw [hpe, alookup_appendVal_self] at hl
      have hl1 := Option.some.inj hl
      rw [← hl1] at hx
      rcases List.mem_append.mp hx with hx1 | hx1
      · rcases hll : alookup p st.secondaries_by_primary with _ | l0
        · rw [hll] at hx1
          simp at hx1
        · rw [hll] at hx1
          simp only [Option.getD_some] at hx1
          have hxp := inv.coh_bp_ps p l0 hll x hx1
          have hxs : x ≠ s := by
            intro hxe
            rw [hxe, hs_ps] at hxp
            exact Option.noConfusion hxp
          change alookup x (setVal s p st.primary_by_secondary) = some p1
          rw [alookup_setVal_ne hxs, hpe]
          exact hxp
      · have hxe : x = s := by simpa using hx1
        rw [hxe, hpe]
        change alookup s (setVal s p st.primary_by_secondary) = some p
        exact alookup_setVal_self s p st.primary_by_secondary
    · rw [alookup_appendVal_ne hpe] at hl
      have hxp := inv.coh_bp_ps p1 l1 hl x hx
      have hxs : x ≠ s := by
        intro hxe
        rw [hxe, hs_ps] at hxp
        exact Option.noConfusion hxp
      change alookup x (setVal s p st.primary_by_secondary) = some p1
      rw [alookup_setVal_ne hxs]
      exact hxp
  · intro p1 l1 hl
    change alookup p1 (appendVal p s st.secondaries_by_primary) = some l1 at hl
    by_cases hpe : p1 = p
    · rw [hpe, alookup_appendVal_self] at hl
      have hl1 := Option.some.inj hl
      rw [← hl1]
      rcases hll : alookup p st.secondaries_by_primary with _ | l0
      · simp
      · simp only [Option.getD_some]
        have hsl : s ∉ l0 := by
          intro hmem
          have hc := inv.coh_bp_ps p l0 hll s hmem
          rw [hs_ps] at hc
          exact Option.noConfusion hc
        simp only [List.nodup_append, List.nodup_cons, List.nodup_nil]
        refine ⟨inv.nodup_lists p l0 hll, by simp, ?_⟩
        intro a ha hb
        rw [List.mem_singleton.mp hb] at ha
        exact hsl ha
    · rw [alookup_appendVal_ne hpe] at hl
      exact inv.nodup_lists p1 l1 hl
  · intro k hk
    change (alookup k (appendVal p s st.secondaries_by_primary)).isSome = true at hk
    by_cases hke : k = p
    · rw [hke]
      change alookup p (setVal s p st.primary_by_secondary) = none
      rw [alookup_setVal_ne hps]
      exact hp_ps
    · rw [alookup_appendVal_ne hke] at hk
      have hkn := inv.disj k hk
      have hks : k ≠ s := by
        intro hke2
        rw [hke2, hs_bp] at hk
        simp at hk
      change alookup k (setVal s p st.primary_by_secondary) = none
      rw [alookup_setVal_ne hks]
      exact hkn

/-- The child-migration fold of `demote_primary` preserves the invariant when
the children are pairwise distinct, fully unlinked, and distinct from the new
primary, which must itself not be secondary. -/
theorem forestInv_foldl_add_mapping {np : MapperEntry} (cs : List MapperEntry) :
    ∀ st : MapperState, ForestInv st → cs.Nodup →
      alookup np st.primary_by_secondary = none →
      (∀ c ∈ cs, alookup c st.primary_by_secondary = none ∧
        alookup c st.secondaries_by_primary = none ∧ c ≠ np) →
      ForestInv (cs.foldl (fun s child => add_mapping s np child) st) := by
  induction cs with
  | nil =>
    intro st inv _ _ _
    exact inv
  | cons c rest ih =>
    intro st inv hnodup hnp hcs
    obtain ⟨hc_ps, hc_bp, hc_np⟩ := hcs c (by simp)
    simp only [List.nodup_cons] at hnodup
    simp only [List.foldl_cons]
    refine ih (add_mapping st np c)
      (forestInv_add_mapping inv hc_ps hc_bp hnp hc_np) hnodup.2 ?_ ?_
    · change alookup np (setVal c np st.primary_by_secondary) = none
      rw [alookup_setVal_ne (Ne.symm hc_np)]
      exact hnp
    · intro c2 hc2
      obtain ⟨h1, h2, h3⟩ := hcs c2 (List.mem_cons_of_mem c hc2)
      have hne : c2 ≠ c := fun he => hnodup.1 (he ▸ hc2)
      refine ⟨?_, ?_, h3⟩
      · change alookup c2 (setVal c np st.primary_by_secondary) = none
        rw [alookup_setVal_ne hne]
        exact h1
      · change alookup c2 (appendVal np c st.secondaries_by_primary) = none
        rw [alookup_appendVal_ne h3]
        exact h2

/-- `_remove_primary(p, True)` (as used by `demote_primary`) preserves the
invariant and fully unlinks `p` and its former secondaries. -/
theorem forestInv_remove_primary {st : MapperState} {p : MapperEntry}
    {lp : List MapperEntry}
    (inv : ForestInv st)
    (hlp : alookup p st.secondaries_by_primary = some lp) :
    ForestInv (remove_primary st p true) ∧
      alookup p (remove_primary st p true).secondaries_by_primary = none ∧
      alookup p (remove_primary st p true).primary_by_secondary = none ∧
      (∀ c ∈ lp, alookup c (remove_primary st p true).primary_by_secondary = none ∧
        alookup c (remove_primary st p true).secondaries_by_primary = none) := by
  have hps_eq : (remove_primary st p true).primary_by_secondary =
      lp.foldl (fun d sec => popKey sec d) st.primary_by_secondary := by
    rw [remove_primary_ps, hlp]
    rfl
  have hbp_eq : (remove_primary st p true).secondaries_by_primary =
      popKey p st.secondaries_by_primary := rfl
  have hsub : List.Sublist (remove_primary st p true).primary_by_secondary
      st.primary_by_secondary := by
    rw [hps_eq]
    exact foldl_popKey_sublist lp st.primary_by_secondary
  have hbp_sub : List.Sublist (remove_primary st p true).secondaries_by_primary
      st.secondaries_by_primary := by
    rw [hbp_eq]
    exact popKey_sublist p st.secondaries_by_primary
  have hp_ps_none : alookup p st.primary_by_secondary = none :=
    inv.disj p (by rw [hlp]; rfl)
  have hinv : ForestInv (remove_primary st p true) := by
    constructor
    · exact nodup_keys_of_sublist hbp_sub inv.nodup_bp
    · exact nodup_keys_of_sublist hsub inv.nodup_ps
    · intro s q hl
      rw [hps_eq] at hl
      have hl0 : alookup s st.primary_by_secondary = some q :=
        alookup_foldl_popKey_some inv.nodup_ps hl
      have hs_not_lp : s ∉ lp := by
        intro hmem
        rw [alookup_foldl_popKey_of_mem inv.nodup_ps hmem] at hl
        exact Option.noConfusion hl
      obtain ⟨l, hll, hmem⟩ := inv.coh_ps_bp s q hl0
      have hqp : q ≠ p := by
        intro he
        rw [he, hlp] at hll
        have hle := Option.some.inj hll
        rw [← hle] at hmem
        exact hs_not_lp hmem
      refine ⟨l, ?_, hmem⟩
      rw [hbp_eq, alookup_popKey_ne hqp]
      exact hll
    · intro q l hl x hx
      rw [hbp_eq] at hl
      have hqp : q ≠ p := by
        intro he
        rw [he, alookup_popKey_self inv.nodup_bp] at hl
        exact Option.noConfusion hl
      rw [alookup_popKey_ne hqp] at hl
      have hxp := inv.coh_bp_ps q l hl x hx
      have hx_not_lp : x ∉ lp := by
        intro hmem
        have hxp2 := inv.coh_bp_ps p lp hlp x hmem
        rw [hxp] at hxp2
        exact hqp (Option.some.inj hxp2)
      rw [hps_eq, alookup_foldl_popKey_of_not_mem hx_not_lp]
      exact hxp
    · intro q l hl
      rw [hbp_eq] at hl
      have hqp : q ≠ p := by
        intro he
        rw [he, alookup_popKey_self inv.nodup_bp] at hl
        exact Option.noConfusion hl
      rw [alookup_popKey_ne hqp] at hl
      exact inv.nodup_lists q l hl
    · intro k hk
      rw [hbp_eq] at hk
      have hkp : k ≠ p := by
        intro he
        rw [he, alookup_popKey_self inv.nodup_bp] at hk
        simp at hk
      rw [alookup_popKey_ne hkp] at hk
      exact alookup_eq_none_of_sublist hsub (inv.disj k hk)
  refine ⟨hinv, ?_, ?_, ?_⟩
  · rw [hbp_eq]
    exact alookup_popKey_self inv.nodup_bp p
  · exact alookup_eq_none_of_sublist hsub hp_ps_none
  · intro c hc
    constructor
    · rw [hps_eq]
      exact alookup_foldl_popKey_of_mem inv.nodup_ps hc
    · have hc_ps : alookup c st.primary_by_secondary = some p :=
        inv.coh_bp_ps p lp hlp c hc
      have hc_bp : alookup c st.secondaries_by_primary = none := by
        rcases hcb : alookup c st.secondaries_by_primary with _ | l2
        · rfl
        · have := inv.disj c (by rw [hcb]; rfl)
          rw [hc_ps] at this
          exact Option.noConfusion this
      exact alookup_eq_none_of_sublist hbp_sub hc_bp

theorem map_secondary_preserves_forestInv {st st2 : MapperState} {s p : MapperEntry}
    (inv : ForestInv st)
    (hgs : is_primary st s = false) (hgp : is_secondary st p = false)
    (h : map_secondary st s p = .ok st2) : ForestInv st2 := by
  obtain ⟨hsrc, hcase⟩ := map_secondary_ok_elim h
  rcases hcase with ⟨_, _, rfl⟩ | ⟨hs, rfl⟩
  · exact inv
  · exact forestInv_add_mapping inv (is_secondary_eq_false.mp hs)
      (is_primary_eq_false.mp hgs) (is_secondary_eq_false.mp hgp)
      (fun he => hsrc (he ▸ rfl))

theorem remap_secondary_preserves_forestInv {st st2 : MapperState} {s np : MapperEntry}
    (inv : ForestInv st) (hg : is_secondary st np = false)
    (h : remap_secondary st s np = .ok st2) : ForestInv st2 := by
  obtain ⟨hsrc, hsec, hcase⟩ := remap_secondary_ok_elim h
  rcases hcase with rfl | ⟨hnsf, old, halt, rfl⟩
  · exact inv
  · have hg0 : alookup np st.primary_by_secondary = none := is_secondary_eq_false.mp hg
    obtain ⟨l_old, h_lold, hs_mem⟩ := inv.coh_ps_bp s old halt
    have h_lold_nodup : l_old.Nodup := inv.nodup_lists old l_old h_lold
    have hold_np : old ≠ np := by
      intro he
      rw [he] at h_lold
      have : is_secondary_for st s np = true := by
        simp only [is_secondary_for, is_primary, h_lold, Option.isSome_some,
          Option.getD_some, Bool.true_and, decide_eq_true_eq]
        exact hs_mem
      rw [this] at hnsf
      exact Bool.noConfusion hnsf
    have hs_np : s ≠ np := by
      intro he
      rw [he, hg0] at halt
      exact Option.noConfusion halt
    have hnp_s : np ≠ s := Ne.symm hs_np
    have hs_old : s ≠ old := by
      intro he
      have hd := inv.disj old (by rw [h_lold]; rfl)
      rw [← he] at hd
      rw [hd] at halt
      exact Option.noConfusion halt
    have hs_np_list : s ∉ (alookup np st.secondaries_by_primary).getD [] := by
      intro hmem
      rcases hnb : alookup np st.secondaries_by_primary with _ | lnp
      · rw [hnb] at hmem
        simp at hmem
      · rw [hnb] at hmem
        simp only [Option.getD_some] at hmem
        have : is_secondary_for st s np = true := by
          simp only [is_secondary_for, is_primary, hnb, Option.isSome_some,
            Option.getD_some, Bool.true_and, decide_eq_true_eq]
          exact hmem
        rw [this] at hnsf
        exact Bool.noConfusion hnsf
    have hs_bp : alookup s st.secondaries_by_primary = none := by
      rcases hsb : alookup s st.secondaries_by_primary with _ | ls
      · rfl
      · have hd := inv.disj s (by rw [hsb]; rfl)
        rw [hd] at halt
        exact Option.noConfusion halt
    have h_old_bp1 : alookup old (removeVal old s st.secondaries_by_primary) =
        some (l_old.erase s) := by
      rw [alookup_removeVal_self, h_lold]
      rfl
    have h_np_bp1 : alookup np (removeVal old s st.secondaries_by_primary) =
        alookup np st.secondaries_by_primary := alookup_removeVal_ne (Ne.symm hold_np) s _
    constructor
    · exact nodup_keys_appendVal (nodup_keys_removeVal inv.nodup_bp old s) np s
    · exact nodup_keys_setVal inv.nodup_ps s np
    · intro s1 p1 hl
      change alookup s1 (setVal s np st.primary_by_secondary) = some p1 at hl
      by_cases he : s1 = s
      · subst he
        rw [alookup_setVal_self] at hl
        have hpp := Option.some.inj hl
        rw [← hpp]
        exact ⟨_, alookup_appendVal_self np s1 _, by simp⟩
      · rw [alookup_setVal_ne he] at hl
        obtain ⟨l1, hll, hmem⟩ := inv.coh_ps_bp s1 p1 hl
        by_cases hpo : p1 = old
        · subst hpo
          have hle := Option.some.inj (h_lold ▸ hll)
          refine ⟨l_old.erase s, ?_, ?_⟩
          · change alookup p1 (appendVal np s (removeVal p1 s st.secondaries_by_primary)) =
              some (l_old.erase s)
            rw [alookup_appendVal_ne hold_np]
            exact h_old_bp1
          · rw [← hle] at hmem
            exact (List.Nodup.mem_erase_iff h_lold_nodup).mpr ⟨he, hmem⟩
        · by_cases hpn : p1 = np
          · subst hpn
            refine ⟨_, alookup_appendVal_self p1 s _, ?_⟩
            rw [h_np_bp1, hll]
            simp only [Option.getD_some]
            exact List.mem_append.mpr (Or.inl hmem)
          · refine ⟨l1, ?_, hmem⟩
            change alookup p1 (appendVal np s (removeVal old s st.secondaries_by_primary)) =
              some l1
            rw [alookup_appendVal_ne hpn, alookup_removeVal_ne hpo]
            exact hll
    · intro p1 l1 hl x hx
      change alookup p1 (appendVal np s (removeVal old s st.secondaries_by_primary)) =
        some l1 at hl
      by_cases hpn : p1 = np
      · rw [hpn, alookup_appendVal_self] at hl
        have hl1 := Option.some.inj hl
        rw [← hl1] at hx
        rcases List.mem_append.mp hx with hx1 | hx1
        · rw [h_np_bp1] at hx1
          rcases hnb : alookup np st.secondaries_by_primary with _ | lnp
          · rw [hnb] at hx1
            simp at hx1
          · rw [hnb] at hx1
            simp only [Option.getD_some] at hx1
            have hxp := inv.coh_bp_ps np lnp hnb x hx1
            have hxs : x ≠ s := by
              intro hxe
              rw [hxe] at hx1
              apply hs_np_list
              rw [hnb]
              simpa using hx1
            change alookup x (setVal s np st.primary_by_secondary) = some p1
            rw [alookup_setVal_ne hxs, hpn]
            exact hxp
        · have hxe : x = s := by simpa using hx1
          rw [hxe, hpn]
          change alookup s (setVal s np st.primary_by_secondary) = some np
          exact alookup_setVal_self s np _
      · rw [alookup_appendVal_ne hpn] at hl
        by_cases hpo : p1 = old
        · rw [hpo, h_old_bp1] at hl
          have hl1 := Option.some.inj hl
          rw [← hl1] at hx
          have hx_lold : x ∈ l_old := List.mem_of_mem_erase hx
          have hxs : x ≠ s := by
            intro hxe
            rw [hxe] at hx
            exact (List.Nodup.not_mem_erase h_lold_nodup) hx
          have hxp := inv.coh_bp_ps old l_old h_lold x hx_lold
          change alookup x (setVal s np st.primary_by_secondary) = some p1
          rw [alookup_setVal_ne hxs, hpo]
          exact hxp
        · rw [alookup_removeVal_ne hpo] at hl
          have hxp := inv.coh_bp_ps p1 l1 hl x hx
          have hxs : x ≠ s := by
            intro hxe
            rw [hxe, halt] at hxp
            exact hpo (Option.some.inj hxp).symm
          change alookup x (setVal s np st.primary_by_secondary) = some p1
          rw [alookup_setVal_ne hxs]
          exact hxp
    · intro p1 l1 hl
      change alookup p1 (appendVal np s (removeVal old s st.secondaries_by_primary)) =
        some l1 at hl
      by_cases hpn : p1 = np
      · rw [hpn, alookup_appendVal_self] at hl
        have hl1 := Option.some.inj hl
        rw [← hl1]
        rw [h_np_bp1]
        rcases hnb : alookup np st.secondaries_by_primary with _ | lnp
        · simp
        · simp only [Option.getD_some]
          have hsl : s ∉ lnp := by
            intro hmem
            apply hs_np_list
            rw [hnb]
            simpa using hmem
          simp only [List.nodup_append, List.nodup_cons, List.nodup_nil]
          refine ⟨inv.nodup_lists np lnp hnb, by simp, ?_⟩
          intro a ha hb
          rw [List.mem_singleton.mp hb] at ha
          exact hsl ha
      · rw [alookup_appendVal_ne hpn] at hl
        by_cases hpo : p1 = old
        · rw [hpo, h_old_bp1] at hl
          have hl1 := Option.some.inj hl
          rw [← hl1]
          exact h_lold_nodup.erase s
        · rw [alookup_removeVal_ne hpo] at hl
          exact inv.nodup_lists p1 l1 hl
    · intro k hk
      change (alookup k (appendVal np s (removeVal old s st.secondaries_by_primary))).isSome =
        true at hk
      by_cases hkn : k = np
      · rw [hkn]
        change alookup np (setVal s np st.primary_by_secondary) = none
        rw [alookup_setVal_ne hnp_s]
        exact hg0
      · rw [alookup_appendVal_ne hkn] at hk
        by_cases hko : k = old
        · rw [hko]
          change alookup old (setVal s np st.primary_by_secondary) = none
          rw [alookup_setVal_ne (Ne.symm hs_old)]
          exact inv.disj old (by rw [h_lold]; rfl)
        · rw [alookup_removeVal_ne hko] at hk
          have hkd := inv.disj k hk
          have hks : k ≠ s := by
            intro hke
            rw [hke, hs_bp] at hk
            simp at hk
          change alookup k (setVal s np st.primary_by_secondary) = none
          rw [alookup_setVal_ne hks]
          exact hkd

theorem demote_primary_preserves_forestInv {st st2 : MapperState} {p np : MapperEntry}
    {mig : Bool} (inv : ForestInv st)
    (h : demote_primary st p np mig = .ok st2) : ForestInv st2 := by
  obtain ⟨hsrc, hp, hnp, rfl⟩ := demote_primary_ok_elim h
  have hpnp : p ≠ np := fun he => hsrc (he ▸ rfl)
  rcases hlp : alookup p st.secondaries_by_primary with _ | lp
  · rw [is_primary, hlp] at hp
    exact absurd hp (by simp)
  · obtain ⟨inv1, hp_bp1, hp_ps1, hchild⟩ := forestInv_remove_primary inv hlp
    have hsub1 : List.Sublist (remove_primary st p true).primary_by_secondary
        st.primary_by_secondary := by
      rw [remove_primary_ps]
      exact foldl_popKey_sublist _ _
    have hnp0 : alookup np st.primary_by_secondary = none := is_secondary_eq_false.mp hnp
    have hnp1 : alookup np (remove_primary st p true).primary_by_secondary = none :=
      alookup_eq_none_of_sublist hsub1 hnp0
    have inv2 : ForestInv (add_mapping (remove_primary st p true) np p) :=
      forestInv_add_mapping inv1 hp_ps1 hp_bp1 hnp1 hpnp
    have hnp2 : alookup np
        (add_mapping (remove_primary st p true) np p).primary_by_secondary = none := by
      change alookup np (setVal p np (remove_primary st p true).primary_by_secondary) = none
      rw [alookup_setVal_ne (Ne.symm hpnp)]
      exact hnp1
    have hchild2 : ∀ c ∈ lp,
        alookup c (add_mapping (remove_primary st p true) np p).primary_by_secondary = none ∧
        alookup c (add_mapping (remove_primary st p true) np p).secondaries_by_primary = none ∧
        c ≠ np := by
      intro c hc
      obtain ⟨hc_ps1, hc_bp1⟩ := hchild c hc
      have hc_ps0 : alookup c st.primary_by_secondary = some p :=
        inv.coh_bp_ps p lp hlp c hc
      have hc_p : c ≠ p := by
        intro he
        have hd := inv.disj p (by rw [hlp]; rfl)
        rw [he, hd] at hc_ps0
        exact Option.noConfusion hc_ps0
      have hc_np : c ≠ np := by
        intro he
        rw [he, hnp0] at hc_ps0
        exact Option.noConfusion hc_ps0
      refine ⟨?_, ?_, hc_np⟩
      · change alookup c (setVal p np (remove_primary st p true).primary_by_secondary) = none
        rw [alookup_setVal_ne hc_p]
        exact hc_ps1
      · change alookup c (appendVal np p
          (remove_primary st p true).secondaries_by_primary) = none
        rw [alookup_appendVal_ne hc_np]
        exact hc_bp1
    cases mig with
    | false =>
      simpa using inv2
    | true =>
      have hres := forestInv_foldl_add_mapping lp _ inv2 (inv.nodup_lists p lp hlp) hnp2 hchild2
      simpa using hres

theorem stepCall_preserves_forestInv (st : MapperState) (c : MapperCall)
    (inv : ForestInv st) (hg : roleGuard st c = true) : ForestInv (stepCall st c) := by
  cases c with
  | mapSec s p =>
    simp only [roleGuard, Bool.and_eq_true, Bool.not_eq_true'] at hg
    cases hr : map_secondary st s p with
    | ok st2 =>
      simpa [stepCall, hr] using map_secondary_preserves_forestInv inv hg.1 hg.2 hr
    | error e => simpa [stepCall, hr] using inv
  | remapSec s np =>
    simp only [roleGuard, Bool.not_eq_true'] at hg
    cases hr : remap_secondary st s np with
    | ok st2 =>
      simpa [stepCall, hr] using remap_secondary_preserves_forestInv inv hg hr
    | error e => simpa [stepCall, hr] using inv
  | demote p np mig =>
    cases hr : demote_primary st p np mig with
    | ok st2 =>
      simpa [stepCall, hr] using demote_primary_preserves_forestInv inv hr
    | error e => simpa [stepCall, hr] using inv

theorem guardedRun_roleGuard_forestInv (cs : List MapperCall) :
    ∀ st : MapperState, ForestInv st → guardedRun roleGuard st cs = true →
      ForestInv (runCalls st cs) := by
  induction cs with
  | nil =>
    intro st h _
    simpa [runCalls] using h
  | cons c rest ih =>
    intro st h hg
    rw [guardedRun, Bool.and_eq_true] at hg
    simp only [runCalls, List.foldl_cons]
    exact ih (stepCall st c) (stepCall_preserves_forestInv st c h hg.1) hg.2

end Mapper

/-- Claim C1, corrected: for call sequences from the empty forest in which
`map_secondary` is only invoked with a secondary argument that is not
currently Primary and a primary argument that is not currently Secondary, and
`remap_secondary` only with a new primary that is not currently Secondary
(exactly the dispatch discipline of the orchestrator; `demote_primary` checks
its own roles), every key is in exactly one of the three states: no key is
simultaneously Primary and Secondary, and a Secondary belongs to exactly one
Primary's list.  Unrestricted sequences violate the invariant — see the
counterexample. -/
theorem mapper_guarded_forest_invariant (cs : List MapperCall)
    (h : Mapper.guardedRun Mapper.roleGuard Mapper.empty cs = true) (k : MapperEntry) :
    ¬(Mapper.is_primary (Mapper.runCalls Mapper.empty cs) k = true ∧
        Mapper.is_secondary (Mapper.runCalls Mapper.empty cs) k = true) ∧
      ∀ p1 p2 : MapperEntry,
        Mapper.is_secondary_for (Mapper.runCalls Mapper.empty cs) k p1 = true →
        Mapper.is_secondary_for (Mapper.runCalls Mapper.empty cs) k p2 = true → p1 = p2 := by
  have inv := Mapper.guardedRun_roleGuard_forestInv cs Mapper.empty Mapper.forestInv_empty h
  constructor
  · rintro ⟨hp, hs⟩
    have hn := inv.disj k (by rw [Mapper.is_primary] at hp; exact hp)
    rw [Mapper.is_secondary, hn] at hs
    exact absurd hs (by simp)
  · intro p1 p2 h1 h2
    simp only [Mapper.is_secondary_for, Mapper.is_primary, Bool.and_eq_true,
      decide_eq_true_eq] at h1 h2
    obtain ⟨hp1, hm1⟩ := h1
    obtain ⟨hp2, hm2⟩ := h2
    rcases hl1 : alookup p1 (Mapper.runCalls Mapper.empty cs).secondaries_by_primary
      with _ | l1
    · rw [hl1] at hp1
      exact absurd hp1 (by simp)
    · rcases hl2 : alookup p2 (Mapper.runCalls Mapper.empty cs).secondaries_by_primary
        with _ | l2
      · rw [hl2] at hp2
        exact absurd hp2 (by simp)
      · rw [hl1] at hm1
        rw [hl2] at hm2
        simp only [Option.getD_some] at hm1 hm2
        have e1 := inv.coh_bp_ps p1 l1 hl1 k hm1
        have e2 := inv.coh_bp_ps p2 l2 hl2 k hm2
        rw [e1] at e2
        exact Option.some.inj e2

/-- Witness for C1: one guarded `map_secondary` call; the key `("s2",2)` is
Secondary of exactly the one primary `("s1",1)` and not also Primary. -/
theorem mapper_guarded_forest_invariant_witness :
    ¬(Mapper.is_primary (Mapper.runCalls Mapper.empty
          [.mapSec ⟨"s2", 2⟩ ⟨"s1", 1⟩]) ⟨"s2", 2⟩ = true ∧
        Mapper.is_secondary (Mapper.runCalls Mapper.empty
          [.mapSec ⟨"s2", 2⟩ ⟨"s1", 1⟩]) ⟨"s2", 2⟩ = true) :=
  (mapper_guarded_forest_invariant [.mapSec ⟨"s2", 2⟩ ⟨"s1", 1⟩] (by decide) ⟨"s2", 2⟩).1

/-- Counterexample to C1 as stated: two plain `map_secondary` calls (the
second maps an existing primary as secondary of a fresh key, which the code
does not forbid) leave `("s1",1)` simultaneously Primary and Secondary. -/
theorem mapper_both_roles_counterexample :
    Mapper.is_primary (Mapper.runCalls Mapper.empty
        [.mapSec ⟨"s2", 2⟩ ⟨"s1", 1⟩, .mapSec ⟨"s1", 1⟩ ⟨"s2", 3⟩]) ⟨"s1", 1⟩ = true ∧
      Mapper.is_secondary (Mapper.runCalls Mapper.empty
        [.mapSec ⟨"s2", 2⟩ ⟨"s1", 1⟩, .mapSec ⟨"s1", 1⟩ ⟨"s2", 3⟩]) ⟨"s1", 1⟩ = true := by
  decide

end GeoMerger
